import Mathlib

/-!
Verification of the data-access core of `redis_gui.py` (class `SimpleRedisClient`),
as a shallow embedding in Lean.

The embedding covers:
* a model of the Python `json` library on the fragment the application uses
  (ASCII strings, integer numerals, booleans, null, arrays, objects);
* the value codec `get_value` / `set_value` over a functional store;
* the cursor-based key scanners `scan` and `scan_with_cursor` over a listed
  key space, with the store's incremental SCAN modelled as slice-by-slice
  enumeration of a fixed key list;
* the connection factory `__init__` / `_try_pool` with the transport's
  keyword-argument acceptance modelled as a capability record, and the UI
  wrapper `_get_client` which performs the liveness ping.
-/

/-- JSON values as produced by `json.loads` on the fragment used by the
application: null, booleans, integer numerals, ASCII strings, arrays, objects
(fields in textual order). -/
inductive JValue where
  | null : JValue
  | bool (b : Bool) : JValue
  | num (n : Int) : JValue
  | str (s : String) : JValue
  | arr (xs : List JValue) : JValue
  | obj (fs : List (String × JValue)) : JValue

/-- Escape of one character inside a JSON string literal, as `json.dumps`
renders the ASCII characters the application feeds it. -/
def escChar (c : Char) : String :=
  if c = '"' then "\\\""
  else if c = '\\' then "\\\\"
  else if c = '\n' then "\\n"
  else if c = '\t' then "\\t"
  else if c = '\r' then "\\r"
  else String.singleton c

/-- JSON string-literal escaping (body only, without the quotes). -/
def jsonEscape (s : String) : String :=
  String.join (s.toList.map escChar)

mutual

/-- Model of `json.dumps` with Python's default separators `", "` and `": "`. -/
def jsonDumps : JValue → String
  | .null => "null"
  | .bool true => "true"
  | .bool false => "false"
  | .num n => toString n
  | .str s => "\"" ++ jsonEscape s ++ "\""
  | .arr xs => "[" ++ dumpsItems xs ++ "]"
  | .obj fs => "\x7b" ++ dumpsFields fs ++ "\x7d"

/-- Comma-joined rendering of array items (`json.dumps` item separator `", "`). -/
def dumpsItems : List JValue → String
  | [] => ""
  | [x] => jsonDumps x
  | x :: y :: xs => jsonDumps x ++ ", " ++ dumpsItems (y :: xs)

/-- Comma-joined rendering of object fields (`json.dumps` key separator `": "`). -/
def dumpsFields : List (String × JValue) → String
  | [] => ""
  | [(k, v)] => "\"" ++ jsonEscape k ++ "\": " ++ jsonDumps v
  | (k, v) :: f :: fs =>
      "\"" ++ jsonEscape k ++ "\": " ++ jsonDumps v ++ ", " ++ dumpsFields (f :: fs)

end

/-- Whitespace skipping of the JSON grammar. -/
def skipWs : List Char → List Char
  | [] => []
  | c :: cs => if c = ' ' ∨ c = '\t' ∨ c = '\n' ∨ c = '\r' then skipWs cs else c :: cs

/-- Parse the body of a JSON string literal (opening quote already consumed),
returning the decoded string and the rest of the input.  `\\u` escapes are
outside the modelled fragment. -/
def parseStringBody : List Char → Option (String × List Char)
  | [] => none
  | c :: cs =>
    if c = '"' then some ("", cs)
    else if c = '\\' then
      match cs with
      | [] => none
      | e :: cs2 =>
        let ec : Option Char :=
          if e = '"' then some '"'
          else if e = '\\' then some '\\'
          else if e = '/' then some '/'
          else if e = 'n' then some '\n'
          else if e = 't' then some '\t'
          else if e = 'r' then some '\r'
          else none
        match ec with
        | none => none
        | some d =>
          match parseStringBody cs2 with
          | none => none
          | some (s, rest) => some (String.singleton d ++ s, rest)
    else
      match parseStringBody cs with
      | none => none
      | some (s, rest) => some (String.singleton c ++ s, rest)

/-- Decimal digits to a natural number. -/
def digitsVal (ds : List Char) : Nat :=
  ds.foldl (fun acc d => 10 * acc + (d.toNat - '0'.toNat)) 0

/-- Parse an integer JSON numeral (optional minus sign, then digits). -/
def parseIntNum (cs : List Char) : Option (Int × List Char) :=
  let (neg, cs1) :=
    match cs with
    | '-' :: rest => (true, rest)
    | _ => (false, cs)
  let ds := cs1.takeWhile Char.isDigit
  let rest := cs1.dropWhile Char.isDigit
  if ds.isEmpty then none
  else some ((if neg then -(digitsVal ds : Int) else (digitsVal ds : Int)), rest)

/-- Check that `pre` is a literal prefix of `cs` and return the remainder. -/
def eatLit : List Char → List Char → Option (List Char)
  | [], cs => some cs
  | p :: ps, c :: cs => if c = p then eatLit ps cs else none
  | _ :: _, [] => none

mutual

/-- Recursive-descent parser for one JSON value; the fuel bounds nesting depth. -/
def parseVal : Nat → List Char → Option (JValue × List Char)
  | 0, _ => none
  | fuel + 1, cs =>
    match skipWs cs with
    | [] => none
    | c :: rest =>
      if c = 'n' then (eatLit ['u', 'l', 'l'] rest).map (fun r => (.null, r))
      else if c = 't' then (eatLit ['r', 'u', 'e'] rest).map (fun r => (.bool true, r))
      else if c = 'f' then (eatLit ['a', 'l', 's', 'e'] rest).map (fun r => (.bool false, r))
      else if c = '"' then (parseStringBody rest).map (fun p => (.str p.1, p.2))
      else if c = '[' then
        match skipWs rest with
        | ']' :: r2 => some (.arr [], r2)
        | r1 => (parseArrItems fuel r1).map (fun p => (.arr p.1, p.2))
      else if c = '\x7b' then
        match skipWs rest with
        | '\x7d' :: r2 => some (.obj [], r2)
        | r1 => (parseObjItems fuel r1).map (fun p => (.obj p.1, p.2))
      else if c = '-' ∨ c.isDigit then
        (parseIntNum (c :: rest)).map (fun p => (.num p.1, p.2))
      else none

/-- Parse the non-empty items of a JSON array up to and including the closing
bracket. -/
def parseArrItems : Nat → List Char → Option (List JValue × List Char)
  | 0, _ => none
  | fuel + 1, cs =>
    match parseVal fuel cs with
    | none => none
    | some (v, rest) =>
      match skipWs rest with
      | ',' :: r2 =>
        match parseArrItems fuel r2 with
        | none => none
        | some (vs, r3) => some (v :: vs, r3)
      | ']' :: r2 => some ([v], r2)
      | _ => none

/-- Parse the non-empty fields of a JSON object up to and including the closing
brace. -/
def parseObjItems : Nat → List Char → Option (List (String × JValue) × List Char)
  | 0, _ => none
  | fuel + 1, cs =>
    match skipWs cs with
    | '"' :: r1 =>
      match parseStringBody r1 with
      | none => none
      | some (k, r2) =>
        match skipWs r2 with
        | ':' :: r3 =>
          match parseVal fuel r3 with
          | none => none
          | some (v, r4) =>
            match skipWs r4 with
            | ',' :: r5 =>
              match parseObjItems fuel r5 with
              | none => none
              | some (fs, r6) => some ((k, v) :: fs, r6)
            | '\x7d' :: r5 => some ([(k, v)], r5)
            | _ => none
        | _ => none
    | _ => none

end

/-- Model of `json.loads` on the modelled fragment: parse one value and require only
whitespace to remain. -/
def jsonLoads (s : String) : Option JValue :=
  match parseVal (s.length + 1) s.toList with
  | none => none
  | some (v, rest) => if (skipWs rest).isEmpty then some v else none

/-- Python `str(...)` on a parsed JSON scalar (as applied by `set_value` to
field values and elements that are not dict/list). -/
def pyStr : JValue → String
  | .str s => s
  | .num n => toString n
  | .bool true => "True"
  | .bool false => "False"
  | .null => "None"
  | .arr xs => jsonDumps (.arr xs)
  | .obj fs => jsonDumps (.obj fs)

/-- The expression `json.dumps(v) if isinstance(v, (dict, list)) else str(v)` — the encoding
`set_value` applies to every stored element or field value. -/
def encodeElem : JValue → String
  | .arr xs => jsonDumps (.arr xs)
  | .obj fs => jsonDumps (.obj fs)
  | v => pyStr v

/-- Python `float(string)` on the fragment the application can feed it:
optional surrounding spaces, optional sign, digits with an optional fractional
part.  Returns `none` when Python would raise `ValueError`. -/
def pyFloatOfString (s : String) : Option Rat :=
  let cs := (s.toList.dropWhile (· = ' ')).reverse.dropWhile (· = ' ') |>.reverse
  let (neg, cs1) :=
    match cs with
    | '-' :: rest => (true, rest)
    | '+' :: rest => (false, rest)
    | _ => (false, cs)
  let ip := cs1.takeWhile Char.isDigit
  let rest1 := cs1.dropWhile Char.isDigit
  match rest1 with
  | [] =>
    if ip.isEmpty then none
    else some (if neg then -(digitsVal ip : Rat) else (digitsVal ip : Rat))
  | '.' :: fp =>
    if fp.all Char.isDigit ∧ ¬(ip.isEmpty ∧ fp.isEmpty) then
      let q : Rat := (digitsVal ip : Rat) + (digitsVal fp : Rat) / ((10 : Rat) ^ fp.length)
      some (if neg then -q else q)
    else none
  | _ => none

/-- Python `float(value)` on a parsed JSON value (used for zset scores):
numbers and booleans convert, numeric strings parse, everything else raises. -/
def pyFloat : JValue → Option Rat
  | .num n => some (n : Rat)
  | .bool true => some 1
  | .bool false => some 0
  | .str s => pyFloatOfString s
  | _ => none

/-- A stored Redis value of one of the five kinds the client edits.
Sets and sorted sets carry their members in insertion order; display sorting
(for sets) happens in `get_value`. -/
inductive RValue where
  | str (s : String) : RValue
  | hash (fs : List (String × String)) : RValue
  | list (xs : List String) : RValue
  | set (xs : List String) : RValue
  | zset (ps : List (String × Rat)) : RValue
  deriving DecidableEq

/-- The key space: a functional map from keys to stored values. -/
def Store : Type := String → Option RValue

/-- The empty key space. -/
def emptyStore : Store := fun _ => none

/-- Overwrite one key (Redis `SET`, or the rebuild after a `DEL`). -/
def storeSet (st : Store) (k : String) (v : RValue) : Store :=
  fun k' => if k' = k then some v else st k'

/-- Redis `DEL` of one key. -/
def storeDel (st : Store) (k : String) : Store :=
  fun k' => if k' = k then none else st k'

/-- Replace the value of field `f` in place, or append the field. -/
def upsertField (fs : List (String × String)) (f v : String) : List (String × String) :=
  match fs with
  | [] => [(f, v)]
  | (g, w) :: rest => if g = f then (g, v) :: rest else (g, w) :: upsertField rest f v

/-- Apply `HSET key mapping={...}`: each field of the mapping is written in
order into the existing hash (or a fresh hash). -/
def hsetFields (fs : List (String × String)) (m : List (String × String)) :
    List (String × String) :=
  m.foldl (fun acc fv => upsertField acc fv.1 fv.2) fs

/-- Model of `SADD` of a batch of members: insertion order with duplicates dropped. -/
def saddAll (xs : List String) : List String :=
  xs.foldl (fun acc x => if x ∈ acc then acc else acc ++ [x]) []

/-- Replace the score of a member in place, or append the member. -/
def upsertScore (ps : List (String × Rat)) (m : String) (s : Rat) : List (String × Rat) :=
  match ps with
  | [] => [(m, s)]
  | (n, t) :: rest => if n = m then (n, s) :: rest else (n, t) :: upsertScore rest m s

/-- The member→score dict `{m: s for m, s in pairs}` built by the zset branch:
first-insertion position, last score wins. -/
def zaddDict (ps : List (String × Rat)) : List (String × Rat) :=
  ps.foldl (fun acc p => upsertScore acc p.1 p.2) []

/-- Python `item.get(key, default)` on a parsed JSON object. -/
def objGetD (fs : List (String × JValue)) (k : String) (d : JValue) : JValue :=
  match fs.find? (fun f => f.1 = k) with
  | some f => f.2
  | none => d

/-- Build the `(member, score)` pairs of the zset branch of `set_value`,
in list order; the first failing item raises, exactly as the Python loop does
before any store command is issued.  An item is a `{"member":…, "score":…}`
object, a two-element array, or (by Python unpacking) a two-character string;
anything else raises. -/
def zsetPairs : List JValue → Except String (List (String × Rat))
  | [] => .ok []
  | item :: rest =>
    match item with
    | .obj fs =>
      match pyFloat (objGetD fs "score" (.num 0)) with
      | none => .error "could not convert value to float"
      | some sc =>
        match zsetPairs rest with
        | .error e => .error e
        | .ok ps => .ok ((encodeElem (objGetD fs "member" .null), sc) :: ps)
    | .arr [m, s] =>
      match pyFloat s with
      | none => .error "could not convert value to float"
      | some sc =>
        match zsetPairs rest with
        | .error e => .error e
        | .ok ps => .ok ((encodeElem m, sc) :: ps)
    | .arr _ => .error "cannot unpack item into member, score"
    | .str s2 =>
      match s2.toList with
      | [a, b] =>
        match pyFloatOfString (String.singleton b) with
        | none => .error "could not convert value to float"
        | some sc =>
          match zsetPairs rest with
          | .error e => .error e
          | .ok ps => .ok ((String.singleton a, sc) :: ps)
      | _ => .error "cannot unpack item into member, score"
    | _ => .error "cannot unpack non-iterable item"

/-- Python `str.lower()` on ASCII strings (executable character map, since
the kinds compared against are ASCII words). -/
def pyLower (s : String) : String :=
  ⟨s.data.map (fun c => if 'A' ≤ c ∧ c ≤ 'Z' then Char.ofNat (c.toNat + 32) else c)⟩

/-- The acknowledgment record returned by `set_value`: operation name, key,
and the reported `fields`/`length` count (absent for plain `SET`). -/
structure SetAck where
  operation : String
  key : String
  info : Option Nat
  deriving DecidableEq

/-- The displayable payload of a `get_value` record. -/
inductive DisplayValue where
  | json (v : JValue) : DisplayValue
  | text (s : String) : DisplayValue
  | fields (fs : List (String × String)) : DisplayValue
  | items (xs : List String) : DisplayValue
  | pairs (ps : List (String × Rat)) : DisplayValue
  | empty : DisplayValue

/-- The record `{"type": t, "key": key, "value": v}` returned by `get_value`. -/
structure GetRecord where
  type : String
  key : String
  value : DisplayValue

/-- Lexicographic sort applied to set members for display. -/
def sortStrings (xs : List String) : List String :=
  List.insertionSort (· ≤ ·) xs

/-- Embedding of `SimpleRedisClient.get_value`: query the key's type, then fetch and shape
the payload; string payloads are JSON-parsed when possible, list/zset payloads
are bounded by `maxItems`, set payloads are sorted. -/
def get_value (st : Store) (key : String) (maxItems : Nat := 200) : GetRecord :=
  match st key with
  | none => ⟨"none", key, .empty⟩
  | some (.str s) =>
    match jsonLoads s with
    | some j => ⟨"string", key, .json j⟩
    | none => ⟨"string", key, .text s⟩
  | some (.hash fs) => ⟨"hash", key, .fields fs⟩
  | some (.list xs) => ⟨"list", key, .items (xs.take maxItems)⟩
  | some (.set xs) => ⟨"set", key, .items (sortStrings xs)⟩
  | some (.zset ps) => ⟨"zset", key, .pairs (ps.take maxItems)⟩

/-- Embedding of `SimpleRedisClient.set_value`: validate `value_text` against the target
type and then issue the store commands of that branch, in source order.
The returned store reflects every command issued before a failure, so an
error leaves it exactly as validation found it. -/
def set_value (st : Store) (key : String) (value_text : String)
    (value_type : String := "string") : Store × Except String SetAck :=
  match pyLower value_type with
  | "string" =>
    (storeSet st key (.str value_text), .ok ⟨"SET", key, none⟩)
  | "hash" =>
    match jsonLoads value_text with
    | none => (st, .error "invalid JSON")
    | some j =>
      match j with
      | .obj fs =>
        if fs.isEmpty then (st, .error "'hset' with no key value pairs")
        else
        let m := fs.map (fun f => (f.1, encodeElem f.2))
        match st key with
        | some (.hash old) =>
          (storeSet st key (.hash (hsetFields old m)), .ok ⟨"HSET", key, some fs.length⟩)
        | none =>
          (storeSet st key (.hash (hsetFields [] m)), .ok ⟨"HSET", key, some fs.length⟩)
        | some _ => (st, .error "WRONGTYPE Operation against a key holding the wrong kind of value")
      | _ => (st, .error "Hash value must be a JSON object")
  | "list" =>
    match jsonLoads value_text with
    | none => (st, .error "invalid JSON")
    | some j =>
      match j with
      | .arr xs =>
        if xs.isEmpty then (st, .ok ⟨"RPUSH", key, some 0⟩)
        else
          let st1 := storeDel st key
          (storeSet st1 key (.list (xs.map encodeElem)), .ok ⟨"RPUSH", key, some xs.length⟩)
      | _ => (st, .error "List value must be a JSON array")
  | "set" =>
    match jsonLoads value_text with
    | none => (st, .error "invalid JSON")
    | some j =>
      match j with
      | .arr xs =>
        if xs.isEmpty then (st, .ok ⟨"SADD", key, some 0⟩)
        else
          let st1 := storeDel st key
          (storeSet st1 key (.set (saddAll (xs.map encodeElem))), .ok ⟨"SADD", key, some xs.length⟩)
      | _ => (st, .error "Set value must be a JSON array")
  | "zset" =>
    match jsonLoads value_text with
    | none => (st, .error "invalid JSON")
    | some j =>
      match j with
      | .arr xs =>
        match zsetPairs xs with
        | .error e => (st, .error e)
        | .ok ps =>
          if ps.isEmpty then (st, .ok ⟨"ZADD", key, some 0⟩)
          else
            let st1 := storeDel st key
            (storeSet st1 key (.zset (zaddDict ps)), .ok ⟨"ZADD", key, some ps.length⟩)
      | _ => (st, .error "ZSet value must be an array of pairs or objects")
  | _ =>
    (st, .error ("Unsupported type: " ++ value_type))

/-! ## Key scanning

The key space seen by SCAN is a list of `(key, typeName)` entries.  One
underlying `client.scan(cursor=c, match=pattern, count=count, [_type=t])`
call is modelled as returning the pattern- (and, natively, type-) matching
keys of the slice of `count` entries starting at position `c`, with the next
cursor being the following position, or `0` once the end is reached — the
store's promise that a full walk from `0` to `0` enumerates every key. -/

/-- The key space enumerated by SCAN: keys with their type names. -/
abbrev ScanStore : Type := List (String × String)

/-- Does an entry's type pass the (optional) native type filter? -/
def tfOk (tf : Option String) (ty : String) : Bool :=
  match tf with
  | none => true
  | some t => ty = t

/-- One underlying incremental SCAN call: next cursor and matching keys of
the current slice. -/
def storeScan (st : ScanStore) (pat : String → Bool) (tf : Option String)
    (cnt : Nat) (c : Nat) : Nat × List String :=
  (if c + cnt < st.length then c + cnt else 0,
   (((st.drop c).take cnt).filter (fun kv => pat kv.1 && tfOk tf kv.2)).map Prod.fst)

/-- Model of `TYPE key` as issued by the client-side fallback: the type name of the
key's (first) entry, or `"none"` for a missing key. -/
def typeOfKey (st : ScanStore) (k : String) : String :=
  match st.find? (fun kv => kv.1 = k) with
  | some kv => kv.2
  | none => "none"

/-- The accumulation loop of `scan_with_cursor` (native path): while fewer
than `count` keys are collected, issue a SCAN from the current cursor, append
its keys, and stop when the store reports cursor `0`. -/
def swcLoop (st : ScanStore) (pat : String → Bool) (tf : Option String) (cnt : Nat) :
    Nat → List String → Nat → List String × Nat
  | 0, acc, c => (acc, c)
  | fuel + 1, acc, c =>
    if acc.length < cnt then
      let r := storeScan st pat tf cnt c
      let acc' := acc ++ r.2
      if r.1 = 0 then (acc', 0) else swcLoop st pat tf cnt fuel acc' r.1
    else (acc, c)

/-- The keys accumulated by one `scan_with_cursor` page before truncation,
with the cursor position after the last SCAN actually issued. -/
def scanPageCollect (st : ScanStore) (pat : String → Bool) (tf : Option String)
    (cnt : Nat) (c : Nat) : List String × Nat :=
  swcLoop st pat tf cnt (st.length + 1) [] c

/-- Embedding of `SimpleRedisClient.scan_with_cursor` (native type-filter path): the
accumulated keys truncated to `count`, and the cursor after the last SCAN. -/
def scan_with_cursor (st : ScanStore) (pat : String → Bool) (tf : Option String)
    (cnt : Nat) (c : Nat) : List String × Nat :=
  let r := scanPageCollect st pat tf cnt c
  (r.1.take cnt, r.2)

/-- The accumulation loop of `scan_with_cursor`'s fallback for servers whose
SCAN rejects `_type`: SCAN without the filter, then keep only the batch keys
whose `TYPE` equals the requested filter. -/
def swcFbLoop (st : ScanStore) (pat : String → Bool) (tfs : String) (cnt : Nat) :
    Nat → List String → Nat → List String × Nat
  | 0, acc, c => (acc, c)
  | fuel + 1, acc, c =>
    if acc.length < cnt then
      let r := storeScan st pat none cnt c
      let acc' := acc ++ r.2.filter (fun k => typeOfKey st k = tfs)
      if r.1 = 0 then (acc', 0) else swcFbLoop st pat tfs cnt fuel acc' r.1
    else (acc, c)

/-- Embedding of `SimpleRedisClient.scan_with_cursor`, client-side type-filter fallback. -/
def scan_with_cursor_fb (st : ScanStore) (pat : String → Bool) (tfs : String)
    (cnt : Nat) (c : Nat) : List String × Nat :=
  let r := swcFbLoop st pat tfs cnt (st.length + 1) [] c
  (r.1.take cnt, r.2)

/-- The do-while accumulation loop of `scan` (both of its paths): always scan
once, then stop when the store reports cursor `0` or at least `count` keys
are collected. -/
def scanLoop (st : ScanStore) (pat : String → Bool) (tf : Option String) (cnt : Nat) :
    Nat → List String → Nat → List String
  | 0, acc, _ => acc
  | fuel + 1, acc, c =>
    let r := storeScan st pat tf cnt c
    let acc' := acc ++ r.2
    if r.1 = 0 ∨ cnt ≤ acc'.length then acc' else scanLoop st pat tf cnt fuel acc' r.1

/-- Embedding of `SimpleRedisClient.scan` with native type filtering: accumulate from
cursor `0`, truncate to `count`. -/
def scanNative (st : ScanStore) (pat : String → Bool) (tfs : String) (cnt : Nat) :
    List String :=
  (scanLoop st pat (some tfs) cnt (st.length + 1) [] 0).take cnt

/-- Embedding of `SimpleRedisClient.scan`, client-side fallback: unfiltered accumulation
from cursor `0`, then a per-key `TYPE` post-filter, then truncation. -/
def scanFallback (st : ScanStore) (pat : String → Bool) (tfs : String) (cnt : Nat) :
    List String :=
  ((scanLoop st pat none cnt (st.length + 1) [] 0).filter
    (fun k => typeOfKey st k = tfs)).take cnt

/-- A full pagination walk as the UI drives it: call `scan_with_cursor`,
resume from the returned cursor, stop once it is `0`. -/
def scanWalk (st : ScanStore) (pat : String → Bool) (tf : Option String) (cnt : Nat) :
    Nat → Nat → List (List String)
  | 0, _ => []
  | fuel + 1, c =>
    let r := scan_with_cursor st pat tf cnt c
    if r.2 = 0 then [r.1] else r.1 :: scanWalk st pat tf cnt fuel r.2

/-- The page sequence of a walk that starts at cursor `0`. -/
def scanWalkZero (st : ScanStore) (pat : String → Bool) (tf : Option String)
    (cnt : Nat) : List (List String) :=
  scanWalk st pat tf cnt (st.length + 1) 0

/-! ## Connection factory

`redis.ConnectionPool(**kwargs)` accepts or rejects keyword arguments
depending on the installed client version.  The optional keyword arguments
`__init__` may pass are modelled as presence flags, and the transport as a
record of which of them it supports (a `TypeError` naming the first
unsupported present argument otherwise), plus whether the legacy
`SSLConnection` class exists and how the server answers `PING`. -/

/-- Presence of the optional keyword arguments in one `ConnectionPool` attempt. -/
structure ConnKwargs where
  username : Bool
  ssl : Bool
  ssl_cert_reqs : Bool
  ssl_context : Bool
  connection_class : Bool
  deriving DecidableEq, Fintype

/-- Transport capabilities and server behaviour. -/
structure TransportEnv where
  okUsername : Bool
  okSsl : Bool
  okSslCertReqs : Bool
  okSslContext : Bool
  okConnectionClass : Bool
  hasSSLConnection : Bool
  /-- `PING` outcome: `some b` is a reply `b`, `none` is a raised error. -/
  pingReply : Option Bool
  deriving DecidableEq

/-- Equality of `Except` results is decidable. -/
instance exceptDecEq {ε α : Type} [DecidableEq ε] [DecidableEq α] :
    DecidableEq (Except ε α) := fun a b =>
  match a, b with
  | .ok x, .ok y =>
    if h : x = y then isTrue (by rw [h]) else isFalse (fun he => by cases he; exact h rfl)
  | .error u, .error v =>
    if h : u = v then isTrue (by rw [h]) else isFalse (fun he => by cases he; exact h rfl)
  | .ok _, .error _ => isFalse (fun he => by cases he)
  | .error _, .ok _ => isFalse (fun he => by cases he)

/-- The transports form a finite type, so properties quantified over all
transports are decidable. -/
instance : Fintype TransportEnv :=
  Fintype.ofEquiv (Bool × Bool × Bool × Bool × Bool × Bool × Option Bool)
    ⟨fun x => ⟨x.1, x.2.1, x.2.2.1, x.2.2.2.1, x.2.2.2.2.1, x.2.2.2.2.2.1, x.2.2.2.2.2.2⟩,
     fun e => (e.okUsername, e.okSsl, e.okSslCertReqs, e.okSslContext,
       e.okConnectionClass, e.hasSSLConnection, e.pingReply),
     fun x => rfl, fun e => rfl⟩

/-- An opaque pool handle recording the accepted keyword arguments. -/
structure Pool where
  kwargs : ConnKwargs
  deriving DecidableEq

/-- Model of `redis.ConnectionPool(**kwargs)`: succeeds iff every present optional
keyword argument is supported; otherwise raises a `TypeError` naming the
first unsupported one. -/
def mkPool (env : TransportEnv) (kw : ConnKwargs) : Except String Pool :=
  if kw.username ∧ ¬env.okUsername then .error "username"
  else if kw.ssl ∧ ¬env.okSsl then .error "ssl"
  else if kw.ssl_cert_reqs ∧ ¬env.okSslCertReqs then .error "ssl_cert_reqs"
  else if kw.ssl_context ∧ ¬env.okSslContext then .error "ssl_context"
  else if kw.connection_class ∧ ¬env.okConnectionClass then .error "connection_class"
  else .ok ⟨kw⟩

/-- The attempt list of `_try_pool(kwargs, use_ssl_conn=False)`: the raw
kwargs, then — each built afresh from the raw kwargs — one attempt per single
dropped key among `username`, `ssl_context`, `ssl_cert_reqs`, `ssl`. -/
def attemptsPlain (kw : ConnKwargs) : List ConnKwargs :=
  [kw,
   { kw with username := false },
   { kw with ssl_context := false },
   { kw with ssl_cert_reqs := false },
   { kw with ssl := false }]

/-- The attempt list of `_try_pool(kwargs, use_ssl_conn=True)`: the kwargs
plus `connection_class=SSLConnection`, then one attempt per single dropped
key among `username`, `ssl_context`, `ssl_cert_reqs`. -/
def attemptsSslConn (kw : ConnKwargs) : List ConnKwargs :=
  let kc := { kw with connection_class := true }
  [kc,
   { kc with username := false },
   { kc with ssl_context := false },
   { kc with ssl_cert_reqs := false }]

/-- Run a list of `ConnectionPool` attempts: return the first accepted pool,
or raise the last attempt's `TypeError`. -/
def runAttempts (env : TransportEnv) : List ConnKwargs → String → Except String Pool
  | [], lastErr => .error lastErr
  | a :: rest, lastErr =>
    match mkPool env a with
    | .ok p => .ok p
    | .error e => runAttempts env rest (if rest.isEmpty then e else lastErr)

/-- Embedding of `_try_pool`: build the attempt list for the requested path and take the
first accepted parameter set; on the TLS-connection path, a missing
`SSLConnection` class raises `SimpleRedisClientError` first. -/
def tryPool (env : TransportEnv) (kw : ConnKwargs) (useSslConn : Bool) :
    Except String Pool :=
  if useSslConn then
    if ¬env.hasSSLConnection then
      .error "This redis-py version does not support SSLConnection. Please upgrade."
    else runAttempts env (attemptsSslConn kw) ""
  else runAttempts env (attemptsPlain kw) ""

/-- A connection profile as the UI supplies it: whether a username is set and
whether TLS is requested (other profile fields are always accepted and do not
influence negotiation). -/
structure Profile where
  hasUsername : Bool
  useSsl : Bool
  deriving DecidableEq, Fintype

/-- The `base_kwargs` that `__init__` builds from a profile: `username` when
set; `ssl`, `ssl_cert_reqs` and `ssl_context` exactly when TLS is requested. -/
def baseKwargs (p : Profile) : ConnKwargs :=
  ⟨p.hasUsername, p.useSsl, p.useSsl, p.useSsl, false⟩

/-- Does the `TypeError` text mention `ssl` (the `'ssl' in str(te)` check)?
In the model the error text is the offending keyword-argument name. -/
def errMentionsSsl (e : String) : Bool :=
  e = "ssl" ∨ e = "ssl_cert_reqs" ∨ e = "ssl_context"

/-- Embedding of `SimpleRedisClient.__init__`: try the modern `ConnectionPool` API, fall
back to the legacy `SSLConnection` path when TLS was requested and the
`TypeError` mentions `ssl`, and wrap any failure in `SimpleRedisClientError`.
No liveness check is performed. -/
def clientInit (env : TransportEnv) (p : Profile) : Except String Pool :=
  match tryPool env (baseKwargs p) false with
  | .ok pool => .ok pool
  | .error te =>
    if p.useSsl ∧ errMentionsSsl te then
      match tryPool env (baseKwargs p) true with
      | .ok pool => .ok pool
      | .error e => .error ("Failed to initialize Redis client: " ++ e)
    else .error ("Failed to initialize Redis client: " ++ te)

/-- Embedding of `SimpleRedisClient.ping`: forward the server's reply, wrapping a raised
error in `SimpleRedisClientError`. -/
def clientPing (env : TransportEnv) : Except String Bool :=
  match env.pingReply with
  | some b => .ok b
  | none => .error "connection error"

/-- The UI's `_get_client`: construct the client, then verify liveness with
`ping()`; a construction failure, a falsy ping reply, or a ping error all
yield no client. -/
def getClient (env : TransportEnv) (p : Profile) : Option Pool :=
  match clientInit env p with
  | .error _ => none
  | .ok pool =>
    match clientPing env with
    | .ok true => some pool
    | .ok false => none
    | .error _ => none

/-! ## Concrete fixtures and explicit behaviour descriptions used by the
theorems below -/

/-- An environment whose transport accepts everything but whose server
answers `PING` with a falsy reply. -/
def envDeadPing : TransportEnv :=
  ⟨true, true, true, true, true, true, some false⟩

/-- A plain profile: no username, no TLS. -/
def profPlain : Profile := ⟨false, false⟩

/-- The matching key names of the key-space segment `[c, e)`. -/
def segKeys (st : ScanStore) (pat : String → Bool) (tf : Option String)
    (c e : Nat) : List String :=
  (((st.drop c).take (e - c)).filter (fun kv => pat kv.1 && tfOk tf kv.2)).map Prod.fst

/-- A three-key store on which every page of a count-2 walk fills exactly. -/
def stW1 : ScanStore := [("a", "string"), ("b", "string"), ("c", "string")]

/-- The error kept by `_try_pool`'s loop: the `TypeError` of the most recent
failing attempt (the last attempt's error once every attempt has failed). -/
def lastErrOf (env : TransportEnv) (as : List ConnKwargs) : String :=
  as.foldl (fun acc a =>
    match mkPool env a with
    | .error e => e
    | .ok _ => acc) ""

/-- The factory behaviour the code actually implements, written out: take the
first accepted attempt of the plain attempt list (full kwargs, then one
single-parameter drop per attempt — not cumulative drops); if every attempt is
rejected and TLS was requested with the final `TypeError` naming an ssl
parameter, retry the `SSLConnection` attempt list the same way; otherwise wrap
the final error in `SimpleRedisClientError`. -/
def factorySpec (env : TransportEnv) (p : Profile) : Except String Pool :=
  match (attemptsPlain (baseKwargs p)).find? (fun a => (mkPool env a).isOk) with
  | some a => mkPool env a
  | none =>
    if p.useSsl ∧ errMentionsSsl (lastErrOf env (attemptsPlain (baseKwargs p))) then
      if env.hasSSLConnection then
        match (attemptsSslConn (baseKwargs p)).find? (fun a => (mkPool env a).isOk) with
        | some a => mkPool env a
        | none => .error ("Failed to initialize Redis client: " ++
            lastErrOf env (attemptsSslConn (baseKwargs p)))
      else .error ("Failed to initialize Redis client: " ++
        "This redis-py version does not support SSLConnection. Please upgrade.")
    else .error ("Failed to initialize Redis client: " ++
      lastErrOf env (attemptsPlain (baseKwargs p)))

/-- A transport that supports neither `username` nor `ssl_context` but would
accept a parameter set with both dropped. -/
def envC6 : TransportEnv := ⟨false, true, true, false, true, true, some true⟩

/-- A TLS profile with a username set. -/
def profC6 : Profile := ⟨true, true⟩

/-! ## Helper lemmas for the codec claims -/

/-- Looking up a different field is unaffected by an in-place field upsert. -/
theorem lookup_upsertField (fs : List (String × String)) (f v g : String) (h : g ≠ f) :
    (upsertField fs f v).lookup g = fs.lookup g := by
  have hgf : (g == f) = false := by
    simp only [beq_eq_false_iff_ne, ne_eq]
    exact h
  induction fs with
  | nil => simp [upsertField, List.lookup, hgf]
  | cons hd tl ih =>
    obtain ⟨a, w⟩ := hd
    by_cases haf : a = f
    · subst haf
      simp [upsertField, List.lookup, hgf]
    · simp only [upsertField, if_neg haf, List.lookup]
      cases hga : (g == a) with
      | true => rfl
      | false => exact ih

/-- Applying `HSET` with a mapping leaves every field outside the mapping untouched. -/
theorem lookup_hsetFields (m : List (String × String)) (fs : List (String × String))
    (g : String) (h : g ∉ m.map Prod.fst) :
    (hsetFields fs m).lookup g = fs.lookup g := by
  induction m generalizing fs with
  | nil => simp [hsetFields]
  | cons hd tl ih =>
    obtain ⟨f, v⟩ := hd
    simp only [List.map_cons, List.mem_cons, not_or] at h
    have : hsetFields fs ((f, v) :: tl) = hsetFields (upsertField fs f v) tl := by
      simp [hsetFields]
    rw [this, ih _ h.2, lookup_upsertField _ _ _ _ h.1]

/-! ## C4: validation failures leave the store unchanged -/

/-- C4.  `set_value` validates the caller text before issuing any mutating
command: whenever the call fails (text not JSON, wrong JSON shape for the
kind, non-numeric score, unrecognized kind, or even a wrong-type hash
target), the store is exactly what it was before the call. -/
theorem set_value_validation_frame (st : Store) (k txt vt : String)
    (he : ((set_value st k txt vt).2).isOk = false) :
    (set_value st k txt vt).1 = st := by
  rcases hsv : set_value st k txt vt with ⟨st2, res⟩
  rw [hsv] at he
  show st2 = st
  unfold set_value at hsv
  repeat' split at hsv
  all_goals
    (injection hsv with h1 h2; subst h1; subst h2;
     first
     | rfl
     | simp [Except.isOk, Except.toBool] at he)

/-- Witness for C4: a non-JSON text for the hash kind fails and the store is
returned untouched. -/
theorem set_value_validation_frame_witness :
    ((set_value emptyStore "k" "nope" "hash").2).isOk = false ∧
      (set_value emptyStore "k" "nope" "hash").1 = emptyStore :=
  ⟨by rfl, set_value_validation_frame emptyStore "k" "nope" "hash" (by rfl)⟩

/-! ## C5: mapping round trip with nested JSON-valued fields -/

/-- C5.  Writing `'{"a":1,"b":[1,2]}'` as a mapping to a fresh key and reading
it back yields the mapping record with the nested array re-serialized to
JSON text and the scalar stored as its string form. -/
theorem mapping_roundtrip_example :
    (set_value emptyStore "h1" "\x7b\"a\":1,\"b\":[1,2]\x7d" "hash").2 =
      .ok ⟨"HSET", "h1", some 2⟩ ∧
    get_value (set_value emptyStore "h1" "\x7b\"a\":1,\"b\":[1,2]\x7d" "hash").1 "h1" 200 =
      ⟨"hash", "h1", .fields [("a", "1"), ("b", "[1, 2]")]⟩ :=
  ⟨rfl, rfl⟩

/-! ## C7: unique-sequence payloads are returned sorted -/

/-- C7.  For a key holding a set, `get_value` returns the members sorted
lexicographically: the result is sorted, duplicate-free, has exactly the
stored members, and is the same for every insertion order of those members. -/
theorem get_value_set_sorted (st : Store) (k : String) (xs : List String)
    (hk : st k = some (.set xs)) (hnd : xs.Nodup) :
    (get_value st k 200).value = .items (sortStrings xs) ∧
    (sortStrings xs).Sorted (· ≤ ·) ∧
    (sortStrings xs).Nodup ∧
    (∀ s, s ∈ sortStrings xs ↔ s ∈ xs) ∧
    (∀ ys : List String, ys.Perm xs → sortStrings ys = sortStrings xs) := by
  refine ⟨by simp [get_value, hk], List.sorted_insertionSort _ xs,
    ((List.perm_insertionSort _ xs).symm).nodup hnd,
    fun s => (List.perm_insertionSort _ xs).mem_iff, fun ys hperm => ?_⟩
  exact List.eq_of_perm_of_sorted
    ((List.perm_insertionSort _ ys).trans (hperm.trans (List.perm_insertionSort _ xs).symm))
    (List.sorted_insertionSort _ ys) (List.sorted_insertionSort _ xs)

/-- Witness for C7 at a concrete two-member set stored in reverse order. -/
theorem get_value_set_sorted_witness :
    (storeSet emptyStore "s1" (.set ["b", "a"]) "s1" = some (.set ["b", "a"]) ∧
       (["b", "a"] : List String).Nodup) ∧
    (get_value (storeSet emptyStore "s1" (.set ["b", "a"])) "s1" 200).value =
      .items (sortStrings ["b", "a"]) :=
  ⟨⟨rfl, by decide⟩,
   (get_value_set_sorted (storeSet emptyStore "s1" (.set ["b", "a"])) "s1" ["b", "a"]
     rfl (by decide)).1⟩

/-! ## C9: scalar payloads are JSON-parsed when possible -/

/-- C9.  For a key holding a string, `get_value` fetches the raw text and
attempts a JSON parse: a parsable text yields the parsed value as payload,
anything else yields the raw text. -/
theorem get_value_string_json (st : Store) (k s : String)
    (hk : st k = some (.str s)) :
    (∀ j, jsonLoads s = some j → get_value st k 200 = ⟨"string", k, .json j⟩) ∧
    (jsonLoads s = none → get_value st k 200 = ⟨"string", k, .text s⟩) := by
  constructor
  · intro j hj
    simp [get_value, hk, hj]
  · intro hj
    simp [get_value, hk, hj]

/-- Witness for C9: a JSON array text is returned parsed. -/
theorem get_value_string_json_witness :
    storeSet emptyStore "k" (.str "[1]") "k" = some (.str "[1]") ∧
    get_value (storeSet emptyStore "k" (.str "[1]")) "k" 200 =
      ⟨"string", "k", .json (.arr [.num 1])⟩ :=
  ⟨rfl,
   (get_value_string_json (storeSet emptyStore "k" (.str "[1]")) "k" "[1]" rfl).1
     (.arr [.num 1]) rfl⟩

/-! ## C10: the mapping kind merges fields, the sequence kinds replace -/

/-- C10.  `set_value` with the hash kind issues only a field-level `HSET`:
fields of an existing hash that are absent from the caller's JSON object
survive with their old values — unlike the list kind, which deletes the key
and re-adds the new elements on non-empty input. -/
theorem set_value_hash_no_delete (st : Store) (k txt : String)
    (fs : List (String × String)) (gs : List (String × JValue))
    (hk : st k = some (.hash fs)) (hp : jsonLoads txt = some (.obj gs))
    (hgs : gs ≠ []) :
    ((set_value st k txt "hash").1 k =
       some (.hash (hsetFields fs (gs.map (fun g => (g.1, encodeElem g.2))))) ∧
     (set_value st k txt "hash").2 = .ok ⟨"HSET", k, some gs.length⟩ ∧
     ∀ f, f ∉ gs.map Prod.fst →
       (hsetFields fs (gs.map (fun g => (g.1, encodeElem g.2)))).lookup f = fs.lookup f) ∧
    ∀ (st2 : Store) (k2 txt2 : String) (old : List String) (xs : List JValue),
      st2 k2 = some (.list old) → jsonLoads txt2 = some (.arr xs) → xs ≠ [] →
      (set_value st2 k2 txt2 "list").1 k2 = some (.list (xs.map encodeElem)) := by
  have hlower : pyLower "hash" = "hash" := rfl
  have hgs' : gs.isEmpty = false := by
    cases gs with
    | nil => exact absurd rfl hgs
    | cons g gs => rfl
  refine ⟨⟨?_, ?_, fun f hf => lookup_hsetFields _ fs f ?_⟩, ?_⟩
  · simp [set_value, hlower, hp, hk, hgs', storeSet]
  · simp [set_value, hlower, hp, hk, hgs']
  · simpa [List.map_map, Function.comp] using hf
  · intro st2 k2 txt2 old xs hk2 hp2 hne
    have hlower2 : pyLower "list" = "list" := rfl
    simp [set_value, hlower2, hp2, hne, storeSet]

/-- Witness for C10: an existing hash keeps its unmentioned field `c` when a
mapping write touches only `a`; a list write fully replaces the elements. -/
theorem set_value_hash_no_delete_witness :
    (storeSet emptyStore "h" (.hash [("c", "7")]) "h" = some (.hash [("c", "7")]) ∧
       jsonLoads "\x7b\"a\":1\x7d" = some (.obj [("a", .num 1)]) ∧
       ([(("a" : String), JValue.num 1)] : List (String × JValue)) ≠ []) ∧
    (hsetFields [("c", "7")]
        ([(("a" : String), JValue.num 1)].map (fun g => (g.1, encodeElem g.2)))).lookup "c" =
      [(("c" : String), ("7" : String))].lookup "c" :=
  ⟨⟨rfl, rfl, List.cons_ne_nil _ _⟩,
   ((set_value_hash_no_delete (storeSet emptyStore "h" (.hash [("c", "7")])) "h"
       "\x7b\"a\":1\x7d" [("c", "7")] [("a", .num 1)] rfl rfl
       (List.cons_ne_nil _ _)).1.2.2 "c" (by decide))⟩

/-! ## C2: the constructor performs no liveness ping -/

/-- Counterexample to C2 as stated: the constructor succeeds and hands back a
connection object even though the store's `PING` fails — `__init__` issues no
liveness round trip. -/
theorem clientInit_ignores_ping :
    envDeadPing.pingReply = some false ∧
      (clientInit envDeadPing profPlain).isOk = true := by
  decide

/-- C2 (amended).  Liveness is verified not by the constructor but by the
UI's `_get_client`, which pings after construction: whenever the ping reply
is not a truthy reply (falsy reply or raised error), no client is returned. -/
theorem getClient_requires_ping (env : TransportEnv) (p : Profile)
    (h : env.pingReply ≠ some true) : getClient env p = none := by
  cases hi : clientInit env p with
  | error e => simp [getClient, hi]
  | ok pool =>
    cases hr : env.pingReply with
    | none => simp [getClient, hi, clientPing, hr]
    | some b =>
      cases b with
      | true => exact absurd hr h
      | false => simp [getClient, hi, clientPing, hr]

/-- Witness for the amended C2 at the concrete dead-ping environment. -/
theorem getClient_requires_ping_witness :
    envDeadPing.pingReply ≠ some true ∧ getClient envDeadPing profPlain = none :=
  ⟨by decide, getClient_requires_ping envDeadPing profPlain (by decide)⟩

/-! ## Helper lemmas for the scan claims -/

/-- Splitting a `take` at an intermediate point. -/
theorem take_add_split {α : Type} (l : List α) (a b : Nat) :
    l.take (a + b) = l.take a ++ (l.drop a).take b := by
  induction a generalizing l with
  | zero => simp
  | succ a ih =>
    cases l with
    | nil => simp
    | cons x xs => simp [Nat.succ_add, ih]

/-- A segment's key names form a sublist of the store's key names. -/
theorem segKeys_sublist (st : ScanStore) (pat : String → Bool) (tf : Option String)
    (c e : Nat) : List.Sublist (segKeys st pat tf c e) (st.map Prod.fst) :=
  List.Sublist.map Prod.fst
    ((List.filter_sublist _).trans ((List.take_sublist _ _).trans (List.drop_sublist _ _)))

/-- Characterization of the `scan_with_cursor` accumulation loop: with enough
fuel it appends the matching keys of a contiguous segment `[c, e)` of the key
space, `e` being the position encoded by the returned cursor (`0` encodes the
end), and it stops only once `count` keys are collected or the end is hit. -/
theorem swcLoop_spec (st : ScanStore) (pat : String → Bool) (tf : Option String)
    (cnt : Nat) (hcnt : 0 < cnt) :
    ∀ (f c : Nat) (acc : List String), 0 < f → (c < st.length → st.length - c < f) →
      (acc.length < cnt ∨ (c ≠ 0 ∧ c < st.length)) →
      ∃ e ks nc, swcLoop st pat tf cnt f acc c = (ks, nc) ∧
        ks = acc ++ segKeys st pat tf c e ∧
        e ≤ st.length ∧
        (c ≤ e ∨ st.length ≤ c) ∧
        (nc = 0 → e = st.length) ∧
        (nc ≠ 0 → nc = e ∧ e < st.length) ∧
        st.drop c = (st.drop c).take (e - c) ++ st.drop e ∧
        (cnt ≤ ks.length ∨ nc = 0) := by
  intro f
  induction f with
  | zero => intro c acc h0 _ _; omega
  | succ f ih =>
    intro c acc _ hfc hguard
    by_cases hg : acc.length < cnt
    · by_cases hlt : c + cnt < st.length
      · -- the scan returns a nonzero cursor: recurse
        have hc_lt : c < st.length := by omega
        have hf1 : st.length - c < f + 1 := hfc hc_lt
        have hstep : swcLoop st pat tf cnt (f + 1) acc c =
            swcLoop st pat tf cnt f (acc ++ (((st.drop c).take cnt).filter
              (fun kv => pat kv.1 && tfOk tf kv.2)).map Prod.fst) (c + cnt) := by
          simp only [swcLoop, if_pos hg, storeScan, if_pos hlt]
          rw [if_neg (by omega : ¬(c + cnt = 0))]
        obtain ⟨e, ks, nc, heq, hks, helen, hege, hnc0, hncne, hchain, hlen⟩ :=
          ih (c + cnt) (acc ++ (((st.drop c).take cnt).filter
              (fun kv => pat kv.1 && tfOk tf kv.2)).map Prod.fst)
            (by omega) (by omega) (Or.inr ⟨by omega, hlt⟩)
        have hce : c + cnt ≤ e := by
          rcases hege with h | h
          · exact h
          · omega
        have hsplit : (st.drop c).take (e - c) =
            (st.drop c).take cnt ++ (st.drop (c + cnt)).take (e - (c + cnt)) := by
          have h9 : e - c = cnt + (e - (c + cnt)) := by omega
          rw [h9, take_add_split, List.drop_drop]
        refine ⟨e, ks, nc, hstep.trans heq, ?_, helen, Or.inl (by omega), hnc0, hncne, ?_, hlen⟩
        · rw [hks, List.append_assoc]
          congr 1
          simp only [segKeys, hsplit, List.filter_append, List.map_append]
        · have h1 : st.drop c = (st.drop c).take cnt ++ st.drop (c + cnt) := by
            conv_lhs => rw [← List.take_append_drop cnt (st.drop c)]
            rw [List.drop_drop]
          rw [hsplit, List.append_assoc, ← hchain, ← h1]
      · -- the scan reports cursor 0: last call of the page
        have hlen_drop : (st.drop c).length ≤ cnt := by
          simp only [List.length_drop]; omega
        have htake : (st.drop c).take cnt = st.drop c := List.take_of_length_le hlen_drop
        have htake2 : (st.drop c).take (st.length - c) = st.drop c :=
          List.take_of_length_le (by simp only [List.length_drop]; omega)
        have hstep : swcLoop st pat tf cnt (f + 1) acc c =
            (acc ++ (((st.drop c).take cnt).filter
              (fun kv => pat kv.1 && tfOk tf kv.2)).map Prod.fst, 0) := by
          simp [swcLoop, hg, storeScan, hlt]
        refine ⟨st.length, _, 0, hstep, ?_, le_rfl, Nat.le_total c st.length,
          fun _ => rfl, fun h => absurd rfl h, ?_, Or.inr rfl⟩
        · simp only [segKeys, htake, htake2]
        · rw [htake2, List.drop_length, List.append_nil]
    · -- already enough keys: the loop exits without scanning
      have hc : c ≠ 0 ∧ c < st.length := by
        rcases hguard with h | h
        · omega
        · exact h
      have hstep : swcLoop st pat tf cnt (f + 1) acc c = (acc, c) := by
        simp [swcLoop, hg]
      refine ⟨c, acc, c, hstep, by simp [segKeys], by omega, Or.inl le_rfl,
        fun h => absurd h hc.1, fun _ => ⟨rfl, hc.2⟩, by simp, Or.inl (by omega)⟩

/-! ## C8: page shape of `scan_with_cursor` -/

/-- C8.  For every pattern, type filter, positive count and starting cursor,
`scan_with_cursor` accumulates scan batches until at least `count` keys are
collected or the store reports cursor `0`: the returned page has at most
`count` keys, and a nonzero `next_cursor` (non-exhaustion) is returned only
with a full page of exactly `count` keys. -/
theorem scan_with_cursor_page_shape (st : ScanStore) (pat : String → Bool)
    (tf : Option String) (cnt c : Nat) (hcnt : 0 < cnt) :
    (scan_with_cursor st pat tf cnt c).1.length ≤ cnt ∧
    ((scan_with_cursor st pat tf cnt c).2 = 0 ∨
      (scan_with_cursor st pat tf cnt c).1.length = cnt) := by
  obtain ⟨e, ks, nc, heq, -, -, -, -, -, -, hlen⟩ :=
    swcLoop_spec st pat tf cnt hcnt (st.length + 1) c [] (by omega) (by omega)
      (Or.inl (by simpa using hcnt))
  have hsw : scan_with_cursor st pat tf cnt c = (ks.take cnt, nc) := by
    simp [scan_with_cursor, scanPageCollect, heq]
  rw [hsw]
  constructor
  · simp [List.length_take]
  · rcases hlen with h | h
    · right
      simp [List.length_take]
      omega
    · left
      exact h

/-- Witness for C8 at a three-key store with count 2 starting from cursor 0. -/
theorem scan_with_cursor_page_shape_witness :
    (0 < 2) ∧
    ((scan_with_cursor [("a", "string"), ("b", "string"), ("c", "string")]
        (fun _ => true) none 2 0).1.length ≤ 2 ∧
      ((scan_with_cursor [("a", "string"), ("b", "string"), ("c", "string")]
          (fun _ => true) none 2 0).2 = 0 ∨
        (scan_with_cursor [("a", "string"), ("b", "string"), ("c", "string")]
            (fun _ => true) none 2 0).1.length = 2)) :=
  ⟨by decide,
   scan_with_cursor_page_shape [("a", "string"), ("b", "string"), ("c", "string")]
     (fun _ => true) none 2 0 (by decide)⟩

/-! ## C3: native vs client-side type filtering -/

/-- With distinct keys, the `TYPE` lookup of a listed entry returns exactly
that entry's type. -/
theorem typeOfKey_of_mem (st : ScanStore) (hnd : (st.map Prod.fst).Nodup)
    (kv : String × String) (h : kv ∈ st) : typeOfKey st kv.1 = kv.2 := by
  induction st with
  | nil => cases h
  | cons hd tl ih =>
    simp only [List.map_cons, List.nodup_cons] at hnd
    rcases List.mem_cons.mp h with rfl | htl
    · simp [typeOfKey]
    · have hne : ¬(hd.1 = kv.1) := by
        intro he
        exact hnd.1 (he ▸ List.mem_map.mpr ⟨kv, htl, rfl⟩)
    -- skip the head and recurse
      have : typeOfKey (hd :: tl) kv.1 = typeOfKey tl kv.1 := by
        simp [typeOfKey, List.find?, hne]
      rw [this]
      exact ih hnd.2 htl

/-- On any batch of store entries, the client-side `TYPE` post-filter of the
pattern-matched keys equals native pattern-and-type filtering. -/
theorem filter_type_batch (st : ScanStore) (hnd : (st.map Prod.fst).Nodup)
    (pat : String → Bool) (tfs : String) :
    ∀ s : List (String × String), (∀ kv ∈ s, kv ∈ st) →
      ((s.filter (fun kv => pat kv.1 && tfOk none kv.2)).map Prod.fst).filter
          (fun k => typeOfKey st k = tfs) =
        (s.filter (fun kv => pat kv.1 && tfOk (some tfs) kv.2)).map Prod.fst := by
  intro s
  induction s with
  | nil => intro _; simp
  | cons kv s' ih =>
    intro hs
    have hty : typeOfKey st kv.1 = kv.2 :=
      typeOfKey_of_mem st hnd kv (hs kv (List.mem_cons_self kv s'))
    have ih' := ih (fun x hx => hs x (List.mem_cons_of_mem _ hx))
    simp only [tfOk, Bool.and_true] at ih' ⊢
    by_cases hp : pat kv.1 = true
    · by_cases ht : kv.2 = tfs
      · simp [List.filter_cons, hp, hty, ht, ih']
      · simp [List.filter_cons, hp, hty, ht, ih']
    · simp only [Bool.not_eq_true] at hp
      simp [List.filter_cons, hp, ih']

/-- The native and fallback accumulation loops of `scan_with_cursor` agree
step by step when the key space has distinct keys. -/
theorem swcLoop_fb_eq (st : ScanStore) (pat : String → Bool) (tfs : String) (cnt : Nat)
    (hnd : (st.map Prod.fst).Nodup) :
    ∀ (f : Nat) (acc : List String) (c : Nat),
      swcLoop st pat (some tfs) cnt f acc c = swcFbLoop st pat tfs cnt f acc c := by
  intro f
  induction f with
  | zero => intro acc c; rfl
  | succ f ih =>
    intro acc c
    have hbatch :
        ((((st.drop c).take cnt).filter (fun kv => pat kv.1 && tfOk none kv.2)).map
            Prod.fst).filter (fun k => typeOfKey st k = tfs) =
          (((st.drop c).take cnt).filter
            (fun kv => pat kv.1 && tfOk (some tfs) kv.2)).map Prod.fst :=
      filter_type_batch st hnd pat tfs _
        (fun kv hk =>
          ((List.take_sublist _ _).trans (List.drop_sublist _ _)).subset hk)
    simp only [swcLoop, swcFbLoop, storeScan, hbatch, ih]

/-- C3 (amended).  With distinct keys, the paginated `scan_with_cursor`
returns identical pages (keys and next cursor) on the native and fallback
paths; `scan`, whose fallback post-filters only after truncating the
unfiltered enumeration, returns the same key list as the native path whenever
`count` covers the whole key space. -/
theorem typeFilter_paths_agree (st : ScanStore) (pat : String → Bool) (tfs : String)
    (hnd : (st.map Prod.fst).Nodup) :
    (∀ cnt c, scan_with_cursor st pat (some tfs) cnt c =
        scan_with_cursor_fb st pat tfs cnt c) ∧
    (∀ cnt, st.length ≤ cnt → scanNative st pat tfs cnt = scanFallback st pat tfs cnt) := by
  constructor
  · intro cnt c
    simp [scan_with_cursor, scan_with_cursor_fb, scanPageCollect,
      swcLoop_fb_eq st pat tfs cnt hnd]
  · intro cnt hcnt
    have hnc : ¬cnt < st.length := by omega
    have htake : st.take cnt = st := List.take_of_length_le hcnt
    have hnat : scanLoop st pat (some tfs) cnt (st.length + 1) [] 0 =
        (st.filter (fun kv => pat kv.1 && tfOk (some tfs) kv.2)).map Prod.fst := by
      simp [scanLoop, storeScan, hnc, htake]
    have hfb : scanLoop st pat none cnt (st.length + 1) [] 0 =
        (st.filter (fun kv => pat kv.1 && tfOk none kv.2)).map Prod.fst := by
      simp [scanLoop, storeScan, hnc, htake]
    rw [scanNative, scanFallback, hnat, hfb,
      filter_type_batch st hnd pat tfs st (fun kv hk => hk)]

/-- Witness for the amended C3 at a concrete two-key store. -/
theorem typeFilter_paths_agree_witness :
    ((([("a", "hash"), ("b", "string")] : ScanStore).map Prod.fst).Nodup ∧
      ([("a", "hash"), ("b", "string")] : ScanStore).length ≤ 2) ∧
    (scan_with_cursor [("a", "hash"), ("b", "string")] (fun _ => true) (some "string") 1 0 =
        scan_with_cursor_fb [("a", "hash"), ("b", "string")] (fun _ => true) "string" 1 0 ∧
      scanNative [("a", "hash"), ("b", "string")] (fun _ => true) "string" 2 =
        scanFallback [("a", "hash"), ("b", "string")] (fun _ => true) "string" 2) :=
  ⟨⟨by decide, by decide⟩,
   ⟨(typeFilter_paths_agree [("a", "hash"), ("b", "string")] (fun _ => true) "string"
       (by decide)).1 1 0,
    (typeFilter_paths_agree [("a", "hash"), ("b", "string")] (fun _ => true) "string"
       (by decide)).2 2 (by decide)⟩⟩

/-- Counterexample to C3 as stated: with keys `a` (a hash) and `b` (a string),
pattern matching everything, type filter `string` and count 1, the native
path of `scan` returns `["b"]` while the client-side fallback truncates the
unfiltered enumeration to `["a"]` before post-filtering and returns `[]` —
a different key set on the same key space. -/
theorem scan_fallback_loses_keys :
    scanNative [("a", "hash"), ("b", "string")] (fun _ => true) "string" 1 = ["b"] ∧
    scanFallback [("a", "hash"), ("b", "string")] (fun _ => true) "string" 1 = [] :=
  ⟨rfl, rfl⟩

/-! ## C1: pagination walk — no duplicates per page, coverage of the key space -/

/-- Starting a page at or beyond the end of the key space collects nothing
and reports cursor 0. -/
theorem scanPageCollect_out_of_range (st : ScanStore) (pat : String → Bool)
    (tf : Option String) (cnt c : Nat) (hcnt : 0 < cnt) (hc : st.length ≤ c) :
    scanPageCollect st pat tf cnt c = ([], 0) := by
  have hdrop : st.drop c = [] := List.drop_eq_nil_of_le hc
  have hnc : ¬(c + cnt < st.length) := by omega
  simp [scanPageCollect, swcLoop, hcnt, storeScan, hnc, hdrop]

/-- Every page produced by a pagination walk is duplicate-free when the key
space has distinct keys: a page is a truncated filter of one contiguous
segment of the key list. -/
theorem scanWalk_pages_nodup (st : ScanStore) (pat : String → Bool) (tf : Option String)
    (cnt : Nat) (hcnt : 0 < cnt) (hnd : (st.map Prod.fst).Nodup) :
    ∀ (f c : Nat), ∀ p ∈ scanWalk st pat tf cnt f c, p.Nodup := by
  intro f
  induction f with
  | zero => intro c p hp; simp [scanWalk] at hp
  | succ f ih =>
    intro c p hp
    obtain ⟨e, ks, nc, heq, hks, -, -, -, -, -, -⟩ :=
      swcLoop_spec st pat tf cnt hcnt (st.length + 1) c [] (by omega) (by omega)
        (Or.inl (by simpa using hcnt))
    rw [List.nil_append] at hks
    have hksnd : ks.Nodup := by
      rw [hks]
      exact List.Nodup.sublist (segKeys_sublist st pat tf c e) hnd
    have htakend : (ks.take cnt).Nodup :=
      List.Nodup.sublist (List.take_sublist cnt ks) hksnd
    have hsw : scan_with_cursor st pat tf cnt c = (ks.take cnt, nc) := by
      simp [scan_with_cursor, scanPageCollect, heq]
    have hwalk : scanWalk st pat tf cnt (f + 1) c =
        if nc = 0 then [ks.take cnt] else ks.take cnt :: scanWalk st pat tf cnt f nc := by
      simp [scanWalk, hsw]
    rw [hwalk] at hp
    by_cases h0 : nc = 0
    · rw [if_pos h0] at hp
      rcases List.mem_cons.mp hp with rfl | habs
      · exact htakend
      · simp at habs
    · rw [if_neg h0] at hp
      rcases List.mem_cons.mp hp with rfl | hrest
      · exact htakend
      · exact ih nc p hrest

/-- Coverage of a pagination walk, under the amending hypothesis that no page
overshoots `count` before truncation: every pattern-matching key of the
suffix of the key space starting at the walk's cursor appears in some page. -/
theorem scanWalk_covers (st : ScanStore) (pat : String → Bool) (cnt : Nat)
    (hcnt : 0 < cnt)
    (hov : ∀ c, (scanPageCollect st pat none cnt c).1.length ≤ cnt) :
    ∀ (f c : Nat), 0 < f → (c < st.length → st.length - c < f) →
      ∀ kv : String × String, kv ∈ st.drop c → pat kv.1 = true →
        kv.1 ∈ (scanWalk st pat none cnt f c).flatten := by
  intro f
  induction f with
  | zero => intro c h0; omega
  | succ f ih =>
    intro c _ hfc kv hkv hpat
    obtain ⟨e, ks, nc, heq, hks, helen, hege, hnc0, hncne, hchain, hlen⟩ :=
      swcLoop_spec st pat none cnt hcnt (st.length + 1) c [] (by omega) (by omega)
        (Or.inl (by simpa using hcnt))
    rw [List.nil_append] at hks
    have hcollect : scanPageCollect st pat none cnt c = (ks, nc) := heq
    have hksfull : ks.take cnt = ks :=
      List.take_of_length_le (by have h := hov c; rw [hcollect] at h; exact h)
    have hsw : scan_with_cursor st pat none cnt c = (ks, nc) := by
      simp [scan_with_cursor, hcollect, hksfull]
    have hwalk : scanWalk st pat none cnt (f + 1) c =
        if nc = 0 then [ks] else ks :: scanWalk st pat none cnt f nc := by
      simp [scanWalk, hsw]
    rw [hwalk]
    by_cases h0 : nc = 0
    · -- final page: the scanned segment reaches the end of the key space
      have he : e = st.length := hnc0 h0
      subst he
      rw [List.drop_length, List.append_nil] at hchain
      have hkv' : kv ∈ (st.drop c).take (st.length - c) := hchain ▸ hkv
      have hmem : kv.1 ∈ ks := by
        rw [hks]
        exact List.mem_map.mpr
          ⟨kv, List.mem_filter.mpr ⟨hkv', by simp [tfOk, hpat]⟩, rfl⟩
      rw [if_pos h0]
      simpa using hmem
    · obtain ⟨hnce, helt⟩ := hncne h0
      have hcnt_le : cnt ≤ ks.length := by
        rcases hlen with h | h
        · exact h
        · exact absurd h h0
      have hce : c < e := by
        by_contra hle
        push_neg at hle
        have hec : e - c = 0 := by omega
        rw [hks, segKeys, hec] at hcnt_le
        simp at hcnt_le
        omega
      rw [if_neg h0]
      rcases List.mem_append.mp (hchain ▸ hkv) with hin | hin
      · have hmem : kv.1 ∈ ks := by
          rw [hks]
          exact List.mem_map.mpr
            ⟨kv, List.mem_filter.mpr ⟨hin, by simp [tfOk, hpat]⟩, rfl⟩
        simp only [List.flatten_cons, List.mem_append]
        exact Or.inl hmem
      · have hclen : c < st.length := by omega
        have hrec := ih e (by omega) (by intro _; omega) kv hin hpat
        rw [hnce]
        simp only [List.flatten_cons, List.mem_append]
        exact Or.inr hrec

/-- C1 (amended).  With distinct keys, a positive count, and no page
overshooting `count` before truncation (for instance when the pattern matches
every key, so each scan batch fills the page exactly), a walk of
`scan_with_cursor` from cursor `0` to cursor `0` produces pages without
duplicate keys and visits every pattern-matching key at least once.  Without
the no-overshoot hypothesis keys can be skipped: the final batch of a page is
truncated to `count` while the cursor has already advanced past the dropped
keys. -/
theorem scanWalk_no_skip_no_dup (st : ScanStore) (pat : String → Bool) (cnt : Nat)
    (hcnt : 0 < cnt) (hnd : (st.map Prod.fst).Nodup)
    (hov : ∀ c, (scanPageCollect st pat none cnt c).1.length ≤ cnt) :
    (∀ p ∈ scanWalkZero st pat none cnt, p.Nodup) ∧
    (∀ kv : String × String, kv ∈ st → pat kv.1 = true →
      kv.1 ∈ (scanWalkZero st pat none cnt).flatten) := by
  constructor
  · intro p hp
    exact scanWalk_pages_nodup st pat none cnt hcnt hnd (st.length + 1) 0 p hp
  · intro kv hkv hpat
    exact scanWalk_covers st pat cnt hcnt hov (st.length + 1) 0 (by omega) (by omega) kv
      (by simpa using hkv) hpat

/-- Witness for the amended C1 at a concrete store with a pattern matching
every key. -/
theorem scanWalk_no_skip_no_dup_witness :
    (0 < 2 ∧ (stW1.map Prod.fst).Nodup ∧
      ∀ c, (scanPageCollect stW1 (fun _ => true) none 2 c).1.length ≤ 2) ∧
    ((∀ p ∈ scanWalkZero stW1 (fun _ => true) none 2, p.Nodup) ∧
      (∀ kv : String × String, kv ∈ stW1 → (fun _ => true) kv.1 = true →
        kv.1 ∈ (scanWalkZero stW1 (fun _ => true) none 2).flatten)) := by
  have hov : ∀ c, (scanPageCollect stW1 (fun _ => true) none 2 c).1.length ≤ 2 := by
    intro c
    rcases Nat.lt_or_ge c 3 with h | h
    · interval_cases c <;> decide
    · rw [scanPageCollect_out_of_range stW1 (fun _ => true) none 2 c (by decide)
        (by simp only [stW1]; simpa using h)]
      decide
  exact ⟨⟨by decide, by decide, hov⟩,
    scanWalk_no_skip_no_dup stW1 (fun _ => true) 2 (by decide) (by decide) hov⟩

/-- Counterexample to C1 as stated: on the key space `a, x, b, c` with the
pattern rejecting only `x` and count 2, the single page of the walk is
`["a", "b"]` with next cursor `0` — the matching key `c` was collected,
truncated away, and skipped, so the walk misses it. -/
theorem scanWalk_skips_matching_key :
    ("c", "string") ∈
        ([("a", "string"), ("x", "string"), ("b", "string"), ("c", "string")] : ScanStore) ∧
    (fun k => k != "x") "c" = true ∧
    ¬"c" ∈ (scanWalkZero
        [("a", "string"), ("x", "string"), ("b", "string"), ("c", "string")]
        (fun k => k != "x") none 2).flatten := by
  decide

/-! ## C6: order of connection attempts -/

set_option maxRecDepth 4000 in
/-- C6 (amended).  For every transport and profile, the constructor returns
the pool of the first accepted attempt among: the full parameter set, then one
attempt per singly-dropped parameter (`username`, TLS context, certificate
flag, ssl flag) — each built from the full set, not cumulatively — with the
legacy `SSLConnection` retry when TLS was requested and the last `TypeError`
names an ssl parameter, and a wrapped `SimpleRedisClientError` once every
attempt is rejected. -/
theorem clientInit_attempt_order :
    ∀ (env : TransportEnv) (p : Profile), clientInit env p = factorySpec env p := by
  decide

/-- Counterexample to C6 as stated: because each fallback attempt drops only
one parameter from the full set (never cumulatively), a transport rejecting
both `username` and `ssl_context` fails every attempt and the constructor
raises — even though the strictly poorer parameter set with both parameters
dropped is accepted by the same transport, which a factory of decreasing
feature richness would have reached. -/
theorem clientInit_not_cumulative :
    (clientInit envC6 profC6).isOk = false ∧
    (mkPool envC6 ⟨false, true, true, false, false⟩).isOk = true := by
  decide
